import Mathlib

/-!
Shallow embedding of the Grouping & Collective-Title Generation Engine of
`src/app.js`: the grammar dictionary, the title normalizer
(`findMasculineRoot`), the collective-title resolver (`processGroupData`),
the group partitioner (`groupedEmployees`), the responsible-person lookup
and the document-data assembler. String manipulation is modelled on
`List Char` so that every definition evaluates by kernel reduction.
-/

set_option maxRecDepth 10000

namespace App

/-! ## Character-list string primitives (JS string operations) -/

/-- Whitespace test used by `trimChars` (models `String.prototype.trim`). -/
def isWs (c : Char) : Bool := c == ' ' || c == '\t' || c == '\n' || c == '\r'

/-- Strip leading and trailing whitespace from a character list. -/
def trimChars (l : List Char) : List Char :=
  ((l.dropWhile isWs).reverse.dropWhile isWs).reverse

/-- Models the JS string trim. -/
def trimStr (s : String) : String := ⟨trimChars s.data⟩

/-- Models the JS split-on-space head: the longest space-free leading segment. -/
def firstWordOf (s : String) : String := ⟨s.data.takeWhile (fun c => c != ' ')⟩

/-- Does the string end with the feminine marker? Models the endsWith test of the source. -/
def endsTa (s : String) : Bool := s.data.getLast? == some 'ة'

/-- True when `pat` is an initial segment of `l`. -/
def leadsList : List Char → List Char → Bool
  | [], _ => true
  | _ :: _, [] => false
  | a :: as, b :: bs => a == b && leadsList as bs

/-- Occurrence test: does `pat` occur as a contiguous segment of `l`?
Models the includes test of JS strings. -/
def hasSubList (pat : List Char) : List Char → Bool
  | [] => leadsList pat []
  | c :: cs => leadsList pat (c :: cs) || hasSubList pat cs

/-- Substring test on strings, via `hasSubList`. -/
def hasSub (s pat : String) : Bool := hasSubList pat.data s.data

/-- Replace the first occurrence of `pat` in `l` by `rep`; identity when `pat`
does not occur. Models the JS replace of a plain (non-pattern) `pat`. -/
def replaceFirstChars (l pat rep : List Char) : List Char :=
  match l with
  | [] => []
  | c :: cs =>
    if leadsList pat (c :: cs) then rep ++ (c :: cs).drop pat.length
    else c :: replaceFirstChars cs pat rep

/-- Models the JS array join on a list of strings. -/
def joinWith (sep : String) : List String → String
  | [] => ""
  | [x] => x
  | x :: y :: xs => x ++ sep ++ joinWith sep (y :: xs)

/-! ## Data model -/

/-- Employee record as loaded from the roster JSON; absent string fields are
modelled by the empty string (the JS code treats them as falsy). -/
structure Employee where
  employeeId : String
  fullName : String
  gender : String
  jobTitle : String
  postResponsibility : String
  workLocation : String
  division : String
  city : String
deriving DecidableEq, Repr

/-- Output record of `processGroupData` (the Collective-Title Resolver). -/
structure GroupData where
  city : String
  maleCollectiveTitle : String
  femaleCollectiveTitle : String
  computedVar : String
  combinedJobTitle : String
  invitees_names : String
  collective_title : String
deriving DecidableEq, Repr

/-- One bucket of the grouping step (`groupedEmployees` accumulator value). -/
structure Group where
  workLocation : String
  division : String
  city : String
  employees : List Employee
deriving DecidableEq, Repr

/-- The three cardinality forms of one gender branch of a dictionary entry. -/
structure GenderForms where
  s : String
  d : String
  p : String
deriving DecidableEq, Repr

/-- A grammar-dictionary entry: masculine and feminine form triples. -/
structure GrammarEntry where
  m : GenderForms
  f : GenderForms
deriving DecidableEq, Repr

/-! ## Grammar dictionary (`jobTitleGrammar` in the source, in source order) -/

/-- The five-entry grammar dictionary of `src/app.js`, keys in insertion
order, every string copied verbatim, including leading and trailing spaces. -/
def jobTitleGrammar : List (String × GrammarEntry) := [
  ("قاضي",
    { m := { s := "القاضي ب", d := "القاضيين ب", p := "القضاة ب" },
      f := { s := "القاضية ب", d := "القاضيتين ب", p := "القاضيات ب" } }),
  ("مستشار",
    { m := { s := "المستشار ب", d := "المستشارين ب", p := "المستشارون ب" },
      f := { s := "المستشارة ب", d := "المستشارتين ب", p := "المستشارات ب" } }),
  ("محام عام",
    { m := { s := "محام عام", d := "محاميان عامان", p := "محامون عامون" },
      f := { s := "محامية عامة", d := "محاميتان عامتان", p := "محاميات عامات" } }),
  ("نائب الوكيل العام للملك",
    { m := { s := " نائب الوكيل العام للملك لدى", d := " نائبا الوكيل العام للملك لدى", p := "نواب الوكيل العام للملك لدى " },
      f := { s := "نائبة الوكيل العام للملك لدى ", d := "لنائبتا الوكيل العام للملك لدى ", p := "نائبات الوكيل العام للملك لدى " } }),
  ("نائب وكيل الملك",
    { m := { s := "نائب وكيل الملك لدى", d := "نائبا وكيل الملك لدى", p := "نواب وكيل الملك لدى " },
      f := { s := "نائبة وكيل الملك لدى ", d := "نائبتا وكيل الملك لدى ", p := "نائبات وكيل الملك لدى " } })]

/-- Models the object-property lookup `jobTitleGrammar[title]`. -/
def grammarLookup (title : String) : Option GrammarEntry :=
  (jobTitleGrammar.find? (fun kv => kv.1 == title)).map (fun kv => kv.2)

/-- Models the `for (const key in jobTitleGrammar)` loop of
`findMasculineRoot`: first entry whose feminine singular, dual or plural
form equals the title. -/
def feminineMatch (title : String) : Option String :=
  (jobTitleGrammar.find? (fun kv =>
    kv.2.f.s == title || kv.2.f.d == title || kv.2.f.p == title)).map (fun kv => kv.1)

/-- Title Normalizer: translation of `findMasculineRoot` (src/app.js:400-423). -/
def findMasculineRoot (title : String) : String :=
  if title = "" then ""
  else if (grammarLookup title).isSome then title
  else
    match feminineMatch title with
    | some key => key
    | none =>
      let firstWord := firstWordOf title
      if endsTa firstWord then
        let masculinizedTitle : String :=
          ⟨replaceFirstChars title.data firstWord.data firstWord.data.dropLast⟩
        if (grammarLookup masculinizedTitle).isSome then masculinizedTitle else title
      else title

/-! ## Collective-Title Resolver (`processGroupData`, src/app.js:431-526) -/

/-- Male partition: members whose gender field equals the male honorific sentinel (src/app.js:432). -/
def malesOf (employees : List Employee) : List Employee :=
  employees.filter (fun e => e.gender == "السيد")

/-- Female partition: members whose gender field equals the female honorific sentinel (src/app.js:433). -/
def femalesOf (employees : List Employee) : List Employee :=
  employees.filter (fun e => e.gender == "السيدة")

/-- Base male collective title before the prefix step (src/app.js:436-441). -/
def maleBaseTitle (males : List Employee) : String :=
  if males.length > 0 then
    (if males.length = 1 then "السيد" else if males.length = 2 then "السيدين" else "السادة")
      ++ " " ++ joinWith " و " (males.map (fun e => e.fullName))
  else ""

/-- Base female collective title before the prefix step (src/app.js:444-449). -/
def femaleBaseTitle (females : List Employee) : String :=
  if females.length > 0 then
    (if females.length = 1 then "السيدة" else if females.length = 2 then "السيدتين" else "السيدات")
      ++ " " ++ joinWith " و " (females.map (fun e => e.fullName))
  else ""

/-- Final `maleCollectiveTitle` after the `ب` prefix step (src/app.js:452-456). -/
def maleCollectiveTitleOf (employees : List Employee) : String :=
  let males := malesOf employees
  if males.length > 0 then "ب" ++ maleBaseTitle males else maleBaseTitle males

/-- Final `femaleCollectiveTitle` after the `ب` prefix step (taken only when
there is no male) and the `و` connector step (src/app.js:452-461). -/
def femaleCollectiveTitleOf (employees : List Employee) : String :=
  let males := malesOf employees
  let females := femalesOf employees
  let t0 := femaleBaseTitle females
  let t1 := if males.length > 0 then t0 else if females.length > 0 then "ب" ++ t0 else t0
  if males.length > 0 && females.length > 0 then " و " ++ t1 else t1

/-- Contextual pronoun `computedVar` (src/app.js:463-474). -/
def computedVarOf (employees : List Employee) : String :=
  let males := malesOf employees
  let females := femalesOf employees
  let totalCount := employees.length
  if totalCount = 1 then (if males.length = 1 then "المعني" else "المعنية")
  else if totalCount = 2 then
    (if males.length = 2 then "المعنيين"
     else if females.length = 2 then "المعنيتين" else "المعنيين")
  else (if males.length > 0 then "المعنيين" else "المعنيات")

/-- City of the first group member, or empty (src/app.js:476). -/
def cityOf (employees : List Employee) : String :=
  match employees with
  | [] => ""
  | e :: _ => e.city

/-- Agreed job title `combinedJobTitle` (src/app.js:479-510). -/
def combinedJobTitleOf (employees : List Employee) : String :=
  match employees with
  | [] => ""
  | e0 :: _ =>
    let males := malesOf employees
    let females := femalesOf employees
    let representativeTitle := trimStr e0.jobTitle
    let root := findMasculineRoot representativeTitle
    match grammarLookup root with
    | some grammarSet =>
      if employees.length = 1 then
        (if males.length = 1 then grammarSet.m.s else grammarSet.f.s)
      else if employees.length = 2 then
        (if females.length = 2 then grammarSet.f.d else grammarSet.m.d)
      else if employees.length > 2 then
        (if males.length > 0 then grammarSet.m.p else grammarSet.f.p)
      else (if root = "" then "" else root)
    | none => representativeTitle

/-- Joined names `invitees_names`: every member full name joined with the connector (src/app.js:513). -/
def inviteesNamesOf (employees : List Employee) : String :=
  joinWith " و " (employees.map (fun e => e.fullName))

/-- Combined `collective_title`: male then female segment, skipping empties
(src/app.js:515-523). -/
def collectiveTitleOf (employees : List Employee) : String :=
  let m := maleCollectiveTitleOf employees
  let f := femaleCollectiveTitleOf employees
  if f ≠ "" then (if m ≠ "" then m ++ f else f) else m

/-- The Collective-Title Resolver `processGroupData` (src/app.js:431-526). -/
def processGroupData (employees : List Employee) : GroupData :=
  { city := cityOf employees
    maleCollectiveTitle := maleCollectiveTitleOf employees
    femaleCollectiveTitle := femaleCollectiveTitleOf employees
    computedVar := computedVarOf employees
    combinedJobTitle := combinedJobTitleOf employees
    invitees_names := inviteesNamesOf employees
    collective_title := collectiveTitleOf employees }

/-! ## Group Partitioner (`groupedEmployees`, src/app.js:546-558) -/

/-- Sentinel default: an empty (JS falsy) field is replaced by the not-available marker. -/
def orNA (s : String) : String := if s = "" then "N/A" else s

/-- The composite grouping key: workLocation, division and city, each
defaulted by `orNA`, joined by underscores (src/app.js:547). -/
def groupKey (e : Employee) : String :=
  orNA e.workLocation ++ "_" ++ orNA e.division ++ "_" ++ orNA e.city

/-- One step of the grouping `reduce`: append the employee to the existing
bucket for its key, or create a fresh bucket at the end (JS object insertion
order). -/
def addToGroups : List (String × Group) → Employee → List (String × Group)
  | [], e => [(groupKey e, ⟨e.workLocation, e.division, e.city, [e]⟩)]
  | kv :: rest, e =>
    if kv.1 = groupKey e then
      (kv.1, { kv.2 with employees := kv.2.employees ++ [e] }) :: rest
    else kv :: addToGroups rest e

/-- The grouping `reduce` of the invited list (src/app.js:546-558), as an
insertion-ordered association list. -/
def groupedEmployees (invitedList : List Employee) : List (String × Group) :=
  invitedList.foldl addToGroups []

/-! ## Responsible person and Document Data Assembler (src/app.js:253-257, 560-589) -/

/-- Translation of `isResponsible` (src/app.js:253-257). -/
def isResponsible (e : Employee) : Bool :=
  if e.postResponsibility = "" then false
  else
    let title := trimStr e.postResponsibility
    hasSub title "رئيس" || hasSub title "رئيسة" || hasSub title "وكيل" || hasSub title "وكيلة"

/-- The `employeeData.find(...)` responsible-person scan (src/app.js:564-567). -/
def findResponsible (employeeData : List Employee)
    (workLocation division city : String) : Option Employee :=
  employeeData.find? (fun e =>
    if e.workLocation != workLocation || e.division != division || e.city != city then false
    else isResponsible e)

/-- The flat per-group payload handed to the template renderer. -/
structure DocData where
  workLocation : String
  division : String
  employees : List Employee
  responsibilityLine : String
  processed : GroupData
deriving DecidableEq, Repr

/-- Per-group body of the generate-word click handler (src/app.js:560-589):
locate the responsible person, build `responsibilityLine`, filter the group
members by identifier and run the resolver. `none` models the crash on an
empty bucket (`employees[0].city`), which the grouping step never produces. -/
def assembleGroup (employeeData : List Employee) (g : Group) : Option DocData :=
  match g.employees with
  | [] => none
  | e0 :: _ =>
    let responsiblePerson := findResponsible employeeData g.workLocation g.division e0.city
    let responsibilityLine :=
      match responsiblePerson with
      | some rp => (if rp.gender = "السيدة" then "السيدة" else "السيد") ++ " " ++ rp.jobTitle
      | none => ""
    let filteredEmployees :=
      match responsiblePerson with
      | some rp => g.employees.filter (fun e => e.employeeId != rp.employeeId)
      | none => g.employees
    some { workLocation := g.workLocation
           division := g.division
           employees := filteredEmployees
           responsibilityLine := responsibilityLine
           processed := processGroupData filteredEmployees }

/-! ## Helper lemmas on the embedded strings -/

/-- Appending two strings concatenates their character lists. -/
theorem str_mk_append (la lb : List Char) : (⟨la⟩ : String) ++ (⟨lb⟩ : String) = ⟨la ++ lb⟩ :=
  rfl

/-- String append is associative. -/
theorem str_append_assoc (a b c : String) : (a ++ b) ++ c = a ++ (b ++ c) := by
  obtain ⟨la⟩ := a
  obtain ⟨lb⟩ := b
  obtain ⟨lc⟩ := c
  show (⟨(la ++ lb) ++ lc⟩ : String) = ⟨la ++ (lb ++ lc)⟩
  rw [List.append_assoc]

/-- The empty string is a right unit for append. -/
theorem str_append_empty (s : String) : s ++ "" = s := by
  obtain ⟨l⟩ := s
  show (⟨l ++ []⟩ : String) = ⟨l⟩
  rw [List.append_nil]

/-- The empty string is a left unit for append. -/
theorem str_empty_append (s : String) : "" ++ s = s := by
  obtain ⟨l⟩ := s
  rfl

/-- A string starting with a character is not empty. -/
theorem str_cons_ne_empty (c : Char) (cs : List Char) : (⟨c :: cs⟩ : String) ≠ "" := by
  intro h
  exact absurd (congrArg String.data h) (by simp)

/-- Prepending a nonempty literal to any string yields a nonempty string. -/
theorem cons_append_ne_empty (c : Char) (cs : List Char) (s : String) :
    ((⟨c :: cs⟩ : String) ++ s) ≠ "" := by
  obtain ⟨l⟩ := s
  show (⟨c :: (cs ++ l)⟩ : String) ≠ ""
  exact str_cons_ne_empty _ _

/-! ## Claim C1: empty group -/

/-- C1 counterexample: on the empty member list the resolver does not return
an all-empty record — the contextual pronoun field `computedVar` is the
plural-feminine pronoun, not the empty string. -/
theorem c1_counterexample :
    (processGroupData []).computedVar ≠ "" ∧
      (processGroupData []).computedVar = "المعنيات" := by
  constructor
  · decide
  · rfl

/-- C1 (amended): for the empty input list `processGroupData` returns a
record whose fields are all empty except `computedVar`, which is the
plural-feminine pronoun (the pronoun branch for counts other than one and
two fires even at count zero, and with no male present it picks the
feminine plural form). -/
theorem c1_empty_group_amended :
    processGroupData [] =
      { city := "", maleCollectiveTitle := "", femaleCollectiveTitle := "",
        computedVar := "المعنيات", combinedJobTitle := "", invitees_names := "",
        collective_title := "" } := by
  rfl

/-! ## Claim C2: pass-through of unknown titles -/

/-- Concrete input for claim C2: a single male member whose job title has a
trailing space and is not in the dictionary, before or after trimming. -/
def c2emp : Employee :=
  { employeeId := "3", fullName := "سعيد", gender := "السيد", jobTitle := "كاتب ",
    postResponsibility := "", workLocation := "w", division := "d", city := "c" }

/-- C2 counterexample: for a job title carrying surrounding whitespace and
absent from the dictionary, `combinedJobTitle` is the trimmed title, which
differs from the original job-title string, so the claimed verbatim
pass-through fails. -/
theorem c2_counterexample :
    grammarLookup (findMasculineRoot (trimStr c2emp.jobTitle)) = none ∧
      grammarLookup (findMasculineRoot c2emp.jobTitle) = none ∧
      (processGroupData [c2emp]).combinedJobTitle ≠ c2emp.jobTitle := by
  refine ⟨rfl, rfl, ?_⟩
  decide

/-- C2 (amended): for every non-empty group whose first member has a job
title whose trimmed form does not normalize to a dictionary key,
`combinedJobTitle` is that job title with surrounding whitespace trimmed
(hence verbatim whenever the stored title carries no surrounding
whitespace). -/
theorem c2_passthrough_amended (e0 : Employee) (rest : List Employee)
    (h : grammarLookup (findMasculineRoot (trimStr e0.jobTitle)) = none) :
    (processGroupData (e0 :: rest)).combinedJobTitle = trimStr e0.jobTitle := by
  simp only [processGroupData, combinedJobTitleOf, h]

/-- Witness for the amended C2 at the concrete employee `c2emp`. -/
theorem c2_witness :
    grammarLookup (findMasculineRoot (trimStr c2emp.jobTitle)) = none ∧
      (processGroupData [c2emp]).combinedJobTitle = trimStr c2emp.jobTitle :=
  ⟨rfl, c2_passthrough_amended c2emp [] rfl⟩

/-! ## Claim C7: the Title Normalizer -/

/-- C7: the normalizer is the identity on every dictionary key; it maps every
feminine singular, dual or plural form of an entry to the key of that entry; and on
any other title it strips the trailing feminine marker from the first
whitespace-separated token and returns the masculinized title when that is a
dictionary key, otherwise the input unchanged. -/
theorem c7_normalizer :
    (∀ kv ∈ jobTitleGrammar, findMasculineRoot kv.1 = kv.1) ∧
    (∀ kv ∈ jobTitleGrammar,
      findMasculineRoot kv.2.f.s = kv.1 ∧ findMasculineRoot kv.2.f.d = kv.1 ∧
        findMasculineRoot kv.2.f.p = kv.1) ∧
    (∀ title : String, title ≠ "" → grammarLookup title = none →
      feminineMatch title = none →
      (endsTa (firstWordOf title) = true →
        (grammarLookup ⟨replaceFirstChars title.data (firstWordOf title).data
            (firstWordOf title).data.dropLast⟩).isSome = true →
        findMasculineRoot title =
          ⟨replaceFirstChars title.data (firstWordOf title).data
            (firstWordOf title).data.dropLast⟩) ∧
      (endsTa (firstWordOf title) = true →
        grammarLookup ⟨replaceFirstChars title.data (firstWordOf title).data
            (firstWordOf title).data.dropLast⟩ = none →
        findMasculineRoot title = title) ∧
      (endsTa (firstWordOf title) = false → findMasculineRoot title = title)) := by
  refine ⟨by decide, by decide, ?_⟩
  intro title hne hlook hfem
  refine ⟨?_, ?_, ?_⟩
  · intro hta hsome
    simp only [findMasculineRoot, if_neg hne, hlook, Option.isSome_none,
      Bool.false_eq_true, if_false, hfem, hta, if_true, hsome]
  · intro hta hnone
    simp only [findMasculineRoot, if_neg hne, hlook, Option.isSome_none,
      Bool.false_eq_true, if_false, hfem, hta, if_true, hnone]
  · intro hta
    simp only [findMasculineRoot, if_neg hne, hlook, Option.isSome_none,
      Bool.false_eq_true, if_false, hfem, hta]

/-- Witness for C7: the identity on the first key, the feminine-dual form of
the entry with the anomalous dual (which still resolves to its key), and the
compound-title fallback on a feminine first token. -/
theorem c7_witness :
    findMasculineRoot "قاضي" = "قاضي" ∧
      findMasculineRoot "لنائبتا الوكيل العام للملك لدى " = "نائب الوكيل العام للملك" ∧
      findMasculineRoot "نائبة وكيل الملك" = "نائب وكيل الملك" := by
  refine ⟨?_, ?_, ?_⟩
  · exact c7_normalizer.1 ("قاضي",
      { m := { s := "القاضي ب", d := "القاضيين ب", p := "القضاة ب" },
        f := { s := "القاضية ب", d := "القاضيتين ب", p := "القاضيات ب" } }) (by decide)
  · exact (c7_normalizer.2.1 ("نائب الوكيل العام للملك",
      { m := { s := " نائب الوكيل العام للملك لدى", d := " نائبا الوكيل العام للملك لدى", p := "نواب الوكيل العام للملك لدى " },
        f := { s := "نائبة الوكيل العام للملك لدى ", d := "لنائبتا الوكيل العام للملك لدى ", p := "نائبات الوكيل العام للملك لدى " } })
      (by decide)).2.1
  · exact (c7_normalizer.2.2 "نائبة وكيل الملك" (by decide) rfl rfl).1 rfl rfl

/-! ## Partition-count lemmas -/

/-- Unfolding of the male partition on a cons cell. -/
theorem malesOf_cons (x : Employee) (t : List Employee) :
    malesOf (x :: t) = if x.gender = "السيد" then x :: malesOf t else malesOf t := by
  simp [malesOf, List.filter_cons]

/-- Unfolding of the female partition on a cons cell. -/
theorem femalesOf_cons (x : Employee) (t : List Employee) :
    femalesOf (x :: t) = if x.gender = "السيدة" then x :: femalesOf t else femalesOf t := by
  simp [femalesOf, List.filter_cons]

/-- The two gender partitions never count more members than the group has. -/
theorem mf_length_le (l : List Employee) :
    (malesOf l).length + (femalesOf l).length ≤ l.length := by
  induction l with
  | nil => simp [malesOf, femalesOf]
  | cons x t ih =>
    rw [malesOf_cons, femalesOf_cons]
    by_cases hm : x.gender = "السيد"
    · have hf : ¬ x.gender = "السيدة" := by rw [hm]; decide
      rw [if_pos hm, if_neg hf]
      simp only [List.length_cons]
      omega
    · rw [if_neg hm]
      by_cases hf : x.gender = "السيدة"
      · rw [if_pos hf]
        simp only [List.length_cons]
        omega
      · rw [if_neg hf]
        simp only [List.length_cons]
        omega

/-- A member of neither gender partition makes the two partition counts sum
to strictly less than the group size. -/
theorem mf_length_lt (l : List Employee) (e : Employee) (he : e ∈ l)
    (h1 : e.gender ≠ "السيد") (h2 : e.gender ≠ "السيدة") :
    (malesOf l).length + (femalesOf l).length < l.length := by
  induction l with
  | nil => cases he
  | cons x t ih =>
    rw [malesOf_cons, femalesOf_cons]
    rcases List.mem_cons.mp he with rfl | hmem
    · have hle := mf_length_le t
      rw [if_neg h1, if_neg h2]
      simp only [List.length_cons]
      omega
    · have hlt := ih hmem
      by_cases hm : x.gender = "السيد"
      · have hf : ¬ x.gender = "السيدة" := by rw [hm]; decide
        rw [if_pos hm, if_neg hf]
        simp only [List.length_cons]
        omega
      · rw [if_neg hm]
        by_cases hf : x.gender = "السيدة"
        · rw [if_pos hf]
          simp only [List.length_cons]
          omega
        · rw [if_neg hf]
          simp only [List.length_cons]
          omega

/-! ## Claim C10: members outside both gender sentinels -/

/-- C10: an employee whose gender field is neither honorific sentinel is
counted in the total (the two partitions sum to strictly less than the
group size) and contributes a name to `invitees_names`, yet belongs to
neither gender partition; a singleton group of such an employee gets the
feminine singular pronoun, an empty collective title, and the feminine
singular dictionary form when the title resolves. -/
theorem c10_unknown_gender (employees : List Employee) (e : Employee)
    (he : e ∈ employees) (h1 : e.gender ≠ "السيد") (h2 : e.gender ≠ "السيدة") :
    e ∉ malesOf employees ∧ e ∉ femalesOf employees ∧
    (malesOf employees).length + (femalesOf employees).length < employees.length ∧
    (processGroupData employees).invitees_names =
      joinWith " و " (employees.map (fun x => x.fullName)) ∧
    e.fullName ∈ employees.map (fun x => x.fullName) ∧
    (employees = [e] →
      (processGroupData employees).computedVar = "المعنية" ∧
      (processGroupData employees).collective_title = "" ∧
      ∀ gs : GrammarEntry,
        grammarLookup (findMasculineRoot (trimStr e.jobTitle)) = some gs →
        (processGroupData employees).combinedJobTitle = gs.f.s) := by
  refine ⟨?_, ?_, mf_length_lt employees e he h1 h2, rfl,
    List.mem_map_of_mem _ he, ?_⟩
  · intro h
    exact h1 (by simpa using (List.mem_filter.mp h).2)
  · intro h
    exact h2 (by simpa using (List.mem_filter.mp h).2)
  · rintro rfl
    have hm : malesOf [e] = [] := by
      rw [malesOf_cons, if_neg h1]
      rfl
    have hf : femalesOf [e] = [] := by
      rw [femalesOf_cons, if_neg h2]
      rfl
    refine ⟨?_, ?_, ?_⟩
    · simp [processGroupData, computedVarOf, hm]
    · simp [processGroupData, collectiveTitleOf, maleCollectiveTitleOf,
        femaleCollectiveTitleOf, maleBaseTitle, femaleBaseTitle, hm, hf]
    · intro gs hgs
      simp [processGroupData, combinedJobTitleOf, hgs, hm]

/-- Concrete input for the C10 witness: a single employee with an empty
gender field and a dictionary job title. -/
def c10emp : Employee :=
  { employeeId := "7", fullName := "منى", gender := "", jobTitle := "قاضي",
    postResponsibility := "", workLocation := "w", division := "d", city := "c" }

/-- Witness for C10 at the singleton group of `c10emp`. -/
theorem c10_witness :
    c10emp ∉ malesOf [c10emp] ∧
      (processGroupData [c10emp]).computedVar = "المعنية" ∧
      (processGroupData [c10emp]).collective_title = "" ∧
      (processGroupData [c10emp]).combinedJobTitle = "القاضية ب" := by
  have h := c10_unknown_gender [c10emp] c10emp (by decide) (by decide) (by decide)
  have hs := h.2.2.2.2.2 rfl
  exact ⟨h.1, hs.1, hs.2.1,
    hs.2.2 { m := { s := "القاضي ب", d := "القاضيين ب", p := "القضاة ب" },
             f := { s := "القاضية ب", d := "القاضيتين ب", p := "القاضيات ب" } } rfl⟩

/-! ## Claim C4: contextual pronoun selection -/

/-- In a group whose members all carry one of the two gender sentinels, the
two partition counts sum to the group size. -/
theorem mf_length_eq (l : List Employee)
    (H : ∀ e ∈ l, e.gender = "السيد" ∨ e.gender = "السيدة") :
    (malesOf l).length + (femalesOf l).length = l.length := by
  induction l with
  | nil => simp [malesOf, femalesOf]
  | cons x t ih =>
    have ht := ih (fun e he => H e (List.mem_cons_of_mem x he))
    rw [malesOf_cons, femalesOf_cons]
    rcases H x (List.mem_cons_self x t) with hm | hf
    · have hf : ¬ x.gender = "السيدة" := by rw [hm]; decide
      rw [if_pos hm, if_neg hf]
      simp only [List.length_cons]
      omega
    · have hm : ¬ x.gender = "السيد" := by rw [hf]; decide
      rw [if_neg hm, if_pos hf]
      simp only [List.length_cons]
      omega

/-- C4: for groups whose members all carry a gender sentinel, the contextual
pronoun `computedVar` is selected exactly by total count and gender
composition: singular masculine or feminine at count one, dual masculine,
dual feminine or the masculine default at count two, and the plural
masculine or feminine form above two according to male presence. -/
theorem c4_pronoun_selection (employees : List Employee)
    (H : ∀ e ∈ employees, e.gender = "السيد" ∨ e.gender = "السيدة") :
    (employees.length = 1 → (malesOf employees).length = 1 →
        (processGroupData employees).computedVar = "المعني") ∧
    (employees.length = 1 → (femalesOf employees).length = 1 →
        (processGroupData employees).computedVar = "المعنية") ∧
    (employees.length = 2 → (malesOf employees).length = 2 →
        (processGroupData employees).computedVar = "المعنيين") ∧
    (employees.length = 2 → (femalesOf employees).length = 2 →
        (processGroupData employees).computedVar = "المعنيتين") ∧
    (employees.length = 2 → (malesOf employees).length = 1 →
      (femalesOf employees).length = 1 →
        (processGroupData employees).computedVar = "المعنيين") ∧
    (employees.length > 2 → (malesOf employees).length > 0 →
        (processGroupData employees).computedVar = "المعنيين") ∧
    (employees.length > 2 → (malesOf employees).length = 0 →
        (processGroupData employees).computedVar = "المعنيات") := by
  have hsum := mf_length_eq employees H
  refine ⟨?_, ?_, ?_, ?_, ?_, ?_, ?_⟩
  · intro h1 hm
    simp [processGroupData, computedVarOf, h1, hm]
  · intro h1 hf
    have hm : (malesOf employees).length = 0 := by omega
    simp [processGroupData, computedVarOf, h1, hm]
  · intro h2 hm
    simp [processGroupData, computedVarOf, h2, hm]
  · intro h2 hf
    have hm : (malesOf employees).length = 0 := by omega
    simp [processGroupData, computedVarOf, h2, hm, hf]
  · intro h2 hm hf
    simp [processGroupData, computedVarOf, h2, hm, hf]
  · intro hgt hm
    have h1 : employees.length ≠ 1 := by omega
    have h2 : employees.length ≠ 2 := by omega
    have hm0 : (malesOf employees).length ≠ 0 := by omega
    simp [processGroupData, computedVarOf, h1, h2, Nat.pos_of_ne_zero hm0]
  · intro hgt hm
    have h1 : employees.length ≠ 1 := by omega
    have h2 : employees.length ≠ 2 := by omega
    simp [processGroupData, computedVarOf, h1, h2, hm]

/-- Concrete input for the C4 witness: one male member. -/
def c4emp : Employee :=
  { employeeId := "4", fullName := "أحمد", gender := "السيد", jobTitle := "",
    postResponsibility := "", workLocation := "w", division := "d", city := "c" }

/-- Witness for C4 at the singleton male group. -/
theorem c4_witness : (processGroupData [c4emp]).computedVar = "المعني" :=
  (c4_pronoun_selection [c4emp] (by decide)).1 rfl rfl

/-! ## Claim C5: inflected job-title selection -/

/-- C5: when the trimmed job title of the first member normalizes to a
dictionary key, `combinedJobTitle` is the inflected form selected by count
and gender composition: at count one the singular form of that member, at
count two the feminine dual exactly when both members are female and the
masculine dual otherwise, and above two the masculine plural when a male is
present and the feminine plural otherwise. -/
theorem c5_job_title_agreement (employees : List Employee) (e0 : Employee)
    (rest : List Employee) (hE : employees = e0 :: rest) (gs : GrammarEntry)
    (hgs : grammarLookup (findMasculineRoot (trimStr e0.jobTitle)) = some gs) :
    (employees.length = 1 →
      (e0.gender = "السيد" → (processGroupData employees).combinedJobTitle = gs.m.s) ∧
      (e0.gender = "السيدة" → (processGroupData employees).combinedJobTitle = gs.f.s)) ∧
    (employees.length = 2 →
      ((femalesOf employees).length = 2 →
        (processGroupData employees).combinedJobTitle = gs.f.d) ∧
      ((femalesOf employees).length ≠ 2 →
        (processGroupData employees).combinedJobTitle = gs.m.d)) ∧
    (employees.length > 2 →
      ((malesOf employees).length > 0 →
        (processGroupData employees).combinedJobTitle = gs.m.p) ∧
      ((malesOf employees).length = 0 →
        (processGroupData employees).combinedJobTitle = gs.f.p)) := by
  subst hE
  refine ⟨?_, ?_, ?_⟩
  · intro h1
    have hrest : rest = [] := by
      simp only [List.length_cons] at h1
      exact List.eq_nil_of_length_eq_zero (by omega)
    subst hrest
    constructor
    · intro hg
      have hm : malesOf [e0] = [e0] := by
        rw [malesOf_cons, if_pos hg]
        rfl
      simp [processGroupData, combinedJobTitleOf, hgs, hm]
    · intro hg
      have hg' : ¬ e0.gender = "السيد" := by rw [hg]; decide
      have hm : malesOf [e0] = [] := by
        rw [malesOf_cons, if_neg hg']
        rfl
      simp [processGroupData, combinedJobTitleOf, hgs, hm]
  · intro h2
    constructor
    · intro hf
      simp [processGroupData, combinedJobTitleOf, hgs, h2, hf]
    · intro hf
      simp [processGroupData, combinedJobTitleOf, hgs, h2, hf]
  · intro hgt
    have hlen : rest.length ≥ 2 := by
      simp only [List.length_cons] at hgt
      omega
    have hr0 : rest ≠ [] := by
      intro h
      rw [h] at hlen
      simp at hlen
    have hr1 : rest.length ≠ 1 := by omega
    have hr2 : 2 < rest.length + 1 := by omega
    constructor
    · intro hm
      have hm0 : (malesOf (e0 :: rest)).length ≠ 0 := by omega
      simp [processGroupData, combinedJobTitleOf, hgs, hr0, hr1, hr2,
        Nat.pos_of_ne_zero hm0]
    · intro hm
      simp [processGroupData, combinedJobTitleOf, hgs, hr0, hr1, hr2, hm]

/-- Concrete input for the C5 witness: one female member with a dictionary
job title. -/
def c5emp : Employee :=
  { employeeId := "5", fullName := "ليلى", gender := "السيدة", jobTitle := "قاضية",
    postResponsibility := "", workLocation := "w", division := "d", city := "c" }

/-- Witness for C5: the singleton female group with the feminine singular
title resolving through the compound-title fallback to the first key. -/
theorem c5_witness : (processGroupData [c5emp]).combinedJobTitle = "القاضية ب" :=
  ((c5_job_title_agreement [c5emp] c5emp [] rfl
    { m := { s := "القاضي ب", d := "القاضيين ب", p := "القضاة ب" },
      f := { s := "القاضية ب", d := "القاضيتين ب", p := "القاضيات ب" } } rfl).1 rfl).2 rfl

/-! ## Claim C6: collective-title assembly -/

/-- With no male member the male collective title is empty. -/
theorem mct_eq_zero (es : List Employee) (h : (malesOf es).length = 0) :
    maleCollectiveTitleOf es = "" := by
  simp [maleCollectiveTitleOf, maleBaseTitle, h]

/-- With a male present the male collective title is the preposition, the
count-selected honorific and the joined names. -/
theorem mct_eq_pos (es : List Employee) (h : 0 < (malesOf es).length) :
    maleCollectiveTitleOf es =
      "ب" ++ ((if (malesOf es).length = 1 then "السيد"
          else if (malesOf es).length = 2 then "السيدين" else "السادة")
        ++ " " ++ joinWith " و " ((malesOf es).map (fun e => e.fullName))) := by
  simp only [maleCollectiveTitleOf, maleBaseTitle, h, if_true]

/-- With no female member the female collective title is empty. -/
theorem fct_eq_zero (es : List Employee) (h : (femalesOf es).length = 0) :
    femaleCollectiveTitleOf es = "" := by
  simp [femaleCollectiveTitleOf, femaleBaseTitle, h]

/-- With females but no males the female collective title carries the
leading preposition. -/
theorem fct_eq_females_only (es : List Employee) (hm : (malesOf es).length = 0)
    (hf : 0 < (femalesOf es).length) :
    femaleCollectiveTitleOf es =
      "ب" ++ ((if (femalesOf es).length = 1 then "السيدة"
          else if (femalesOf es).length = 2 then "السيدتين" else "السيدات")
        ++ " " ++ joinWith " و " ((femalesOf es).map (fun e => e.fullName))) := by
  simp only [femaleCollectiveTitleOf, femaleBaseTitle, hm, hf, if_true,
    lt_self_iff_false, if_false, Bool.false_and, Bool.and_eq_true,
    decide_eq_true_eq]
  simp [hf]

/-- With both partitions populated the female collective title carries the
leading connector. -/
theorem fct_eq_mixed (es : List Employee) (hm : 0 < (malesOf es).length)
    (hf : 0 < (femalesOf es).length) :
    femaleCollectiveTitleOf es =
      " و " ++ ((if (femalesOf es).length = 1 then "السيدة"
          else if (femalesOf es).length = 2 then "السيدتين" else "السيدات")
        ++ " " ++ joinWith " و " ((femalesOf es).map (fun e => e.fullName))) := by
  simp only [femaleCollectiveTitleOf, femaleBaseTitle, hm, hf, if_true]
  simp [hm, hf]

/-- The preposition-headed male segment is never the empty string. -/
theorem ba_append_ne_empty (s : String) : ("ب" ++ s) ≠ "" :=
  cons_append_ne_empty 'ب' [] s

/-- The connector-headed female segment is never the empty string. -/
theorem wa_append_ne_empty (s : String) : (" و " ++ s) ≠ "" :=
  cons_append_ne_empty ' ' ['و', ' '] s

/-- C6: `collective_title` is the male segment followed by the female
segment, where a non-empty partition yields its count-selected honorific
followed by the partition names joined with the connector, the first
non-empty partition (male first) receives the leading preposition, the
female segment receives the leading connector instead when both partitions
are non-empty, and empty segments disappear. -/
theorem c6_collective_title (employees : List Employee) :
    (processGroupData employees).collective_title =
      (if (malesOf employees).length = 0 then "" else
        "ب" ++ ((if (malesOf employees).length = 1 then "السيد"
            else if (malesOf employees).length = 2 then "السيدين" else "السادة")
          ++ " " ++ joinWith " و " ((malesOf employees).map (fun e => e.fullName)))) ++
      (if (femalesOf employees).length = 0 then "" else
        (if (malesOf employees).length = 0 then "ب" else " و ") ++
          ((if (femalesOf employees).length = 1 then "السيدة"
              else if (femalesOf employees).length = 2 then "السيدتين" else "السيدات")
            ++ " " ++ joinWith " و " ((femalesOf employees).map (fun e => e.fullName)))) := by
  rw [show (processGroupData employees).collective_title =
      (if femaleCollectiveTitleOf employees ≠ "" then
        (if maleCollectiveTitleOf employees ≠ "" then
          maleCollectiveTitleOf employees ++ femaleCollectiveTitleOf employees
        else femaleCollectiveTitleOf employees)
      else maleCollectiveTitleOf employees) from rfl]
  rcases Nat.eq_zero_or_pos (malesOf employees).length with hm | hm
  · rcases Nat.eq_zero_or_pos (femalesOf employees).length with hf | hf
    · rw [mct_eq_zero employees hm, fct_eq_zero employees hf]
      simp [hm, hf]
    · have hf0 : (femalesOf employees).length ≠ 0 := by omega
      rw [mct_eq_zero employees hm, fct_eq_females_only employees hm hf]
      rw [if_pos (ba_append_ne_empty _), if_neg (by simp)]
      rw [if_pos hm, if_neg hf0, if_pos hm, str_empty_append]
  · have hm0 : (malesOf employees).length ≠ 0 := by omega
    rcases Nat.eq_zero_or_pos (femalesOf employees).length with hf | hf
    · rw [mct_eq_pos employees hm, fct_eq_zero employees hf]
      rw [if_neg (by simp)]
      rw [if_neg hm0, if_pos hf, str_append_empty]
    · have hf0 : (femalesOf employees).length ≠ 0 := by omega
      rw [mct_eq_pos employees hm, fct_eq_mixed employees hm hf]
      rw [if_pos (wa_append_ne_empty _), if_pos (ba_append_ne_empty _)]
      rw [if_neg hm0, if_neg hf0, if_neg hm0]

/-! ## Claim C8: responsible-person exclusion -/

/-- C8: when the roster scan finds a responsible person for a group, the
assembled payload filters that person out of the member list by employee
identifier before the resolver runs, keeps every member with a different
identifier, and cites the person only in `responsibilityLine` as the
gendered honorific followed by the job title. -/
theorem c8_responsible_exclusion (employeeData : List Employee) (g : Group)
    (e0 : Employee) (rest : List Employee) (hg : g.employees = e0 :: rest)
    (rp : Employee)
    (hrp : findResponsible employeeData g.workLocation g.division e0.city = some rp) :
    ∃ doc : DocData, assembleGroup employeeData g = some doc ∧
      doc.employees = g.employees.filter (fun e => e.employeeId != rp.employeeId) ∧
      (∀ e ∈ doc.employees, e.employeeId ≠ rp.employeeId) ∧
      (∀ e ∈ g.employees, e.employeeId ≠ rp.employeeId → e ∈ doc.employees) ∧
      doc.responsibilityLine =
        (if rp.gender = "السيدة" then "السيدة" else "السيد") ++ " " ++ rp.jobTitle ∧
      doc.processed = processGroupData doc.employees := by
  have hA : assembleGroup employeeData g =
      some { workLocation := g.workLocation
             division := g.division
             employees := (e0 :: rest).filter (fun e => e.employeeId != rp.employeeId)
             responsibilityLine :=
               (if rp.gender = "السيدة" then "السيدة" else "السيد") ++ " " ++ rp.jobTitle
             processed := processGroupData
               ((e0 :: rest).filter (fun e => e.employeeId != rp.employeeId)) } := by
    unfold assembleGroup
    rw [hg]
    simp only [hrp]
  refine ⟨_, hA, ?_, ?_, ?_, rfl, rfl⟩
  · rw [hg]
  · intro e he
    have := (List.mem_filter.mp he).2
    simpa using this
  · intro e he hne
    rw [hg] at he
    exact List.mem_filter.mpr ⟨he, by simpa using hne⟩

/-- Concrete roster entry for the C8 witness: the responsible person. -/
def c8resp : Employee :=
  { employeeId := "1", fullName := "هند", gender := "السيدة",
    jobTitle := "وكيلة الملك", postResponsibility := "وكيلة الملك",
    workLocation := "w", division := "d", city := "c" }

/-- Concrete group copy of the responsible person (same identifier). -/
def c8e0 : Employee :=
  { employeeId := "1", fullName := "هند", gender := "السيدة",
    jobTitle := "وكيلة الملك", postResponsibility := "وكيلة الملك",
    workLocation := "w", division := "d", city := "c" }

/-- Concrete second group member for the C8 witness. -/
def c8other : Employee :=
  { employeeId := "2", fullName := "أحمد", gender := "السيد", jobTitle := "قاضي",
    postResponsibility := "", workLocation := "w", division := "d", city := "c" }

/-- Concrete group for the C8 witness. -/
def c8group : Group :=
  { workLocation := "w", division := "d", city := "c", employees := [c8e0, c8other] }

/-- Witness for C8 at the concrete roster and group. -/
theorem c8_witness :
    ∃ doc : DocData, assembleGroup [c8resp] c8group = some doc ∧
      doc.employees = c8group.employees.filter (fun e => e.employeeId != c8resp.employeeId) ∧
      (∀ e ∈ doc.employees, e.employeeId ≠ c8resp.employeeId) ∧
      (∀ e ∈ c8group.employees, e.employeeId ≠ c8resp.employeeId → e ∈ doc.employees) ∧
      doc.responsibilityLine =
        (if c8resp.gender = "السيدة" then "السيدة" else "السيد") ++ " " ++ c8resp.jobTitle ∧
      doc.processed = processGroupData doc.employees :=
  c8_responsible_exclusion [c8resp] c8group c8e0 [c8other] rfl c8resp rfl

/-! ## Grouping lemmas -/

/-- First bucket stored under a key, as the JS object property read. -/
def lookupGroup (acc : List (String × Group)) (k : String) : Option Group :=
  (acc.find? (fun kv => kv.1 == k)).map (fun kv => kv.2)

/-- Keys after one grouping step: unchanged when the key of the new employee
is present, extended at the end otherwise. -/
theorem keys_addToGroups (acc : List (String × Group)) (x : Employee) :
    (addToGroups acc x).map Prod.fst =
      if groupKey x ∈ acc.map Prod.fst then acc.map Prod.fst
      else acc.map Prod.fst ++ [groupKey x] := by
  induction acc with
  | nil => simp [addToGroups]
  | cons kv rest ih =>
    by_cases h : kv.1 = groupKey x
    · simp [addToGroups, h]
    · by_cases hmem : groupKey x ∈ rest.map Prod.fst
      · simp [addToGroups, h, ih, hmem, Ne.symm h]
      · simp [addToGroups, h, ih, hmem, Ne.symm h]

/-- Key-set membership after one grouping step. -/
theorem mem_keys_addToGroups (acc : List (String × Group)) (x : Employee)
    (k : String) :
    k ∈ (addToGroups acc x).map Prod.fst ↔
      (k ∈ acc.map Prod.fst ∨ k = groupKey x) := by
  rw [keys_addToGroups]
  by_cases hmem : groupKey x ∈ acc.map Prod.fst
  · rw [if_pos hmem]
    constructor
    · exact fun h => Or.inl h
    · rintro (h | rfl)
      · exact h
      · exact hmem
  · rw [if_neg hmem]
    simp

/-- One grouping step preserves key distinctness. -/
theorem nodup_keys_addToGroups (acc : List (String × Group)) (x : Employee)
    (h : (acc.map Prod.fst).Nodup) :
    ((addToGroups acc x).map Prod.fst).Nodup := by
  rw [keys_addToGroups]
  by_cases hmem : groupKey x ∈ acc.map Prod.fst
  · rw [if_pos hmem]
    exact h
  · rw [if_neg hmem]
    simp [List.nodup_append, h, hmem]

/-- Unfolding of `lookupGroup` on a cons cell. -/
theorem lookupGroup_cons (kv : String × Group) (rest : List (String × Group))
    (k : String) :
    lookupGroup (kv :: rest) k = if kv.1 = k then some kv.2 else lookupGroup rest k := by
  by_cases h : kv.1 = k
  · simp [lookupGroup, List.find?, h]
  · have hb : (kv.1 == k) = false := beq_eq_false_iff_ne.mpr h
    simp [lookupGroup, List.find?, hb, h]

/-- Unfolding of `addToGroups` on a cons cell. -/
theorem addToGroups_cons (kv : String × Group) (rest : List (String × Group))
    (x : Employee) :
    addToGroups (kv :: rest) x =
      if kv.1 = groupKey x then
        (kv.1, { kv.2 with employees := kv.2.employees ++ [x] }) :: rest
      else kv :: addToGroups rest x := rfl

/-- Lookup after one grouping step: the bucket of the new key gains the
employee (or is created with it), and other buckets are untouched. -/
theorem lookup_addToGroups (acc : List (String × Group)) (x : Employee)
    (k : String) :
    lookupGroup (addToGroups acc x) k =
      if k = groupKey x then
        (match lookupGroup acc k with
         | some g => some { g with employees := g.employees ++ [x] }
         | none => some ⟨x.workLocation, x.division, x.city, [x]⟩)
      else lookupGroup acc k := by
  induction acc with
  | nil =>
    by_cases h : k = groupKey x
    · subst h
      simp [addToGroups, lookupGroup, List.find?]
    · have hbeq : (groupKey x == k) = false :=
        beq_eq_false_iff_ne.mpr (fun hh => h hh.symm)
      simp [addToGroups, lookupGroup, List.find?, hbeq, h]
  | cons kv rest ih =>
    rw [addToGroups_cons]
    by_cases hkv : kv.1 = groupKey x
    · rw [if_pos hkv]
      rw [lookupGroup_cons, lookupGroup_cons]
      by_cases hk : k = groupKey x
      · have hke : kv.1 = k := by rw [hkv, hk]
        rw [if_pos hk, if_pos hke, if_pos hke]
      · have hke : kv.1 ≠ k := fun e => hk (e.symm.trans hkv)
        rw [if_neg hk, if_neg hke, if_neg hke]
    · rw [if_neg hkv]
      rw [lookupGroup_cons, lookupGroup_cons]
      by_cases hh : kv.1 = k
      · have hk : ¬ k = groupKey x := fun e => hkv (hh.trans e)
        rw [if_pos hh, if_neg hk, if_pos hh]
      · rw [if_neg hh, if_neg hh, ih]

/-- Absent keys have no bucket. -/
theorem lookup_eq_none_iff (acc : List (String × Group)) (k : String) :
    lookupGroup acc k = none ↔ k ∉ acc.map Prod.fst := by
  induction acc with
  | nil => simp [lookupGroup]
  | cons kv rest ih =>
    by_cases h : kv.1 = k
    · simp [lookupGroup, List.find?_cons, h]
    · have hbeq : (kv.1 == k) = false := by simpa using h
      simp only [lookupGroup, List.find?_cons, hbeq, cond_false, List.map_cons,
        List.mem_cons]
      rw [← lookupGroup]
      rw [ih]
      constructor
      · intro hk
        rintro (rfl | hmem)
        · exact h rfl
        · exact hk hmem
      · intro hk hmem
        exact hk (Or.inr hmem)

/-- Under distinct keys, every stored pair is what lookup returns. -/
theorem lookup_of_mem_nodup (acc : List (String × Group))
    (hnd : (acc.map Prod.fst).Nodup) (kv : String × Group) (hmem : kv ∈ acc) :
    lookupGroup acc kv.1 = some kv.2 := by
  induction acc with
  | nil => cases hmem
  | cons a rest ih =>
    rcases List.mem_cons.mp hmem with rfl | hmem'
    · simp [lookupGroup, List.find?_cons]
    · have hnd' := hnd
      rw [List.map_cons, List.nodup_cons] at hnd'
      have hne : a.1 ≠ kv.1 := by
        intro h
        exact hnd'.1 (h ▸ List.mem_map_of_mem Prod.fst hmem')
      have hbeq : (a.1 == kv.1) = false := by simpa using hne
      simp only [lookupGroup, List.find?_cons, hbeq, cond_false]
      exact ih hnd'.2 hmem'

/-- Invariant of the grouping fold: distinct keys, every bucket holds
exactly the already-processed employees with its key in first-seen order,
and every processed employee has a bucket. -/
theorem grouped_foldl_inv (l : List Employee) :
    ∀ (p : List Employee) (acc : List (String × Group)),
      (acc.map Prod.fst).Nodup →
      (∀ k g, lookupGroup acc k = some g →
        g.employees = p.filter (fun e => groupKey e == k)) →
      (∀ e ∈ p, groupKey e ∈ acc.map Prod.fst) →
      ((l.foldl addToGroups acc).map Prod.fst).Nodup ∧
      (∀ k g, lookupGroup (l.foldl addToGroups acc) k = some g →
        g.employees = (p ++ l).filter (fun e => groupKey e == k)) ∧
      (∀ e ∈ p ++ l, groupKey e ∈ (l.foldl addToGroups acc).map Prod.fst) := by
  induction l with
  | nil =>
    intro p acc h1 h2 h3
    simp only [List.foldl_nil, List.append_nil]
    exact ⟨h1, h2, h3⟩
  | cons x xs ih =>
    intro p acc h1 h2 h3
    have h1' : ((addToGroups acc x).map Prod.fst).Nodup := nodup_keys_addToGroups acc x h1
    have h2' : ∀ k g, lookupGroup (addToGroups acc x) k = some g →
        g.employees = (p ++ [x]).filter (fun e => groupKey e == k) := by
      intro k g hg
      rw [lookup_addToGroups] at hg
      by_cases hk : k = groupKey x
      · rw [if_pos hk] at hg
        cases hacc : lookupGroup acc k with
        | some g0 =>
          rw [hacc] at hg
          have hg0 := h2 k g0 hacc
          have hge := Option.some.inj hg
          subst hge
          have hbx : (groupKey x == k) = true := by
            rw [hk]
            exact beq_self_eq_true _
          simp [List.filter_append, hg0, hbx]
        | none =>
          rw [hacc] at hg
          have hge := Option.some.inj hg
          subst hge
          have hknot : k ∉ acc.map Prod.fst := (lookup_eq_none_iff acc k).mp hacc
          have hpnil : p.filter (fun e => groupKey e == k) = [] := by
            rw [List.filter_eq_nil_iff]
            intro e he hbe
            exact hknot (by
              have : groupKey e = k := by simpa using hbe
              exact this ▸ h3 e he)
          have hbx : (groupKey x == k) = true := by
            rw [hk]
            exact beq_self_eq_true _
          simp [List.filter_append, hpnil, hbx]
      · rw [if_neg hk] at hg
        have hbx : (groupKey x == k) = false :=
          beq_eq_false_iff_ne.mpr (fun e => hk e.symm)
        simp [List.filter_append, h2 k g hg, hbx]
    have h3' : ∀ e ∈ p ++ [x], groupKey e ∈ (addToGroups acc x).map Prod.fst := by
      intro e he
      rcases List.mem_append.mp he with hep | hex
      · exact (mem_keys_addToGroups acc x (groupKey e)).mpr (Or.inl (h3 e hep))
      · have hex' : e = x := by simpa using hex
        rw [hex']
        exact (mem_keys_addToGroups acc x (groupKey x)).mpr (Or.inr rfl)
    have hres := ih (p ++ [x]) (addToGroups acc x) h1' h2' h3'
    rw [List.foldl_cons]
    refine ⟨hres.1, ?_, ?_⟩
    · intro k g hg
      have := hres.2.1 k g hg
      rwa [List.append_assoc, List.singleton_append] at this
    · intro e he
      apply hres.2.2
      rw [List.append_assoc, List.singleton_append]
      exact he

/-! ## Claim C9: partition structure -/

/-- C9 (amended): for an invited list with unique identifiers the grouping
is a stable order-preserving multimap build over the composite key string:
every bucket holds exactly the invited employees whose key string equals
the bucket key, in first-seen order; every employee lands in a bucket; no
identifier appears in two distinct buckets; and employees with equal key
strings share a bucket. -/
theorem c9_partition_amended (l : List Employee)
    (hids : (l.map (fun e => e.employeeId)).Nodup) :
    (∀ kv ∈ groupedEmployees l,
        kv.2.employees = l.filter (fun e => groupKey e == kv.1)) ∧
    (∀ e ∈ l, ∃ kv ∈ groupedEmployees l, kv.1 = groupKey e ∧ e ∈ kv.2.employees) ∧
    (∀ kv₁ ∈ groupedEmployees l, ∀ kv₂ ∈ groupedEmployees l, kv₁.1 ≠ kv₂.1 →
        ∀ e₁ ∈ kv₁.2.employees, ∀ e₂ ∈ kv₂.2.employees,
          e₁.employeeId ≠ e₂.employeeId) ∧
    (∀ e₁ ∈ l, ∀ e₂ ∈ l, groupKey e₁ = groupKey e₂ →
        ∀ kv ∈ groupedEmployees l, e₁ ∈ kv.2.employees → e₂ ∈ kv.2.employees) := by
  have hinv := grouped_foldl_inv l [] []
    (by simp) (by intro k g hg; simp [lookupGroup] at hg) (by simp)
  have hnd : ((groupedEmployees l).map Prod.fst).Nodup := hinv.1
  have hbucket : ∀ kv ∈ groupedEmployees l,
      kv.2.employees = l.filter (fun e => groupKey e == kv.1) := by
    intro kv hkv
    have hlook := lookup_of_mem_nodup (groupedEmployees l) hnd kv hkv
    simpa using hinv.2.1 kv.1 kv.2 hlook
  have hcover : ∀ e ∈ l, ∃ kv ∈ groupedEmployees l,
      kv.1 = groupKey e ∧ e ∈ kv.2.employees := by
    intro e he
    have hkey : groupKey e ∈ (groupedEmployees l).map Prod.fst := by
      apply hinv.2.2
      simpa using he
    rcases List.mem_map.mp hkey with ⟨kv, hkv, hfst⟩
    refine ⟨kv, hkv, hfst, ?_⟩
    rw [hbucket kv hkv]
    exact List.mem_filter.mpr ⟨he, by simp [hfst]⟩
  refine ⟨hbucket, hcover, ?_, ?_⟩
  · intro kv₁ h₁ kv₂ h₂ hne e₁ he₁ e₂ he₂ hid
    rw [hbucket kv₁ h₁] at he₁
    rw [hbucket kv₂ h₂] at he₂
    have hm₁ := List.mem_filter.mp he₁
    have hm₂ := List.mem_filter.mp he₂
    have heq : e₁ = e₂ :=
      List.inj_on_of_nodup_map hids hm₁.1 hm₂.1 hid
    apply hne
    have hk₁ : groupKey e₁ = kv₁.1 := by simpa using hm₁.2
    have hk₂ : groupKey e₂ = kv₂.1 := by simpa using hm₂.2
    rw [← hk₁, ← hk₂, heq]
  · intro e₁ h₁ e₂ h₂ hkey kv hkv he₁
    rw [hbucket kv hkv] at he₁ ⊢
    have hm₁ := List.mem_filter.mp he₁
    refine List.mem_filter.mpr ⟨h₂, ?_⟩
    have : groupKey e₁ = kv.1 := by simpa using hm₁.2
    simp [← hkey, this]

/-- Concrete employee for the C9 counterexample, location containing the
separator character. -/
def c9a : Employee :=
  { employeeId := "1", fullName := "أ", gender := "السيد", jobTitle := "",
    postResponsibility := "", workLocation := "a_b", division := "c", city := "d" }

/-- Concrete employee for the C9 counterexample, different location tuple
with the same composite key string. -/
def c9b : Employee :=
  { employeeId := "2", fullName := "ب", gender := "السيد", jobTitle := "",
    postResponsibility := "", workLocation := "a", division := "b_c", city := "d" }

/-- C9 counterexample: two employees with unique identifiers and distinct
(workLocation, division, city) tuples land in one bucket, because the
underscore-joined key strings collide; equality of the key tuple is
therefore not equivalent to sharing a group. -/
theorem c9_counterexample :
    c9a.employeeId ≠ c9b.employeeId ∧
      (c9a.workLocation, c9a.division, c9a.city) ≠
        (c9b.workLocation, c9b.division, c9b.city) ∧
      groupedEmployees [c9a, c9b] =
        [("a_b_c_d", { workLocation := "a_b", division := "c", city := "d",
                       employees := [c9a, c9b] })] := by
  refine ⟨by decide, by decide, ?_⟩
  rfl

/-- Concrete employee for the C9 witness. -/
def c9w : Employee :=
  { employeeId := "9", fullName := "نور", gender := "السيدة", jobTitle := "",
    postResponsibility := "", workLocation := "w", division := "d", city := "c" }

/-- Witness for the amended C9 at a one-element invited list. -/
theorem c9_witness :
    (Group.mk "w" "d" "c" [c9w]).employees =
      [c9w].filter (fun e => groupKey e == "w_d_c") :=
  (c9_partition_amended [c9w] (by decide)).1
    ("w_d_c", Group.mk "w" "d" "c" [c9w]) (by decide)

/-! ## Claim C3: no record is excluded by the partitioning step -/

/-- Concrete malformed record for C3: empty identifier and empty gender. -/
def c3bad : Employee :=
  { employeeId := "", fullName := "بدون", gender := "", jobTitle := "",
    postResponsibility := "", workLocation := "", division := "", city := "" }

/-- C3 counterexample: a record missing both the identifier and the gender
sentinel is still placed in a bucket by the grouping step (with the
not-available sentinel key), so the claimed exclusion of malformed records
does not happen. -/
theorem c3_counterexample :
    groupedEmployees [c3bad] =
      [("N/A_N/A_N/A", { workLocation := "", division := "", city := "",
                         employees := [c3bad] })] := by
  rfl

/-- C3 (amended): the partitioning step excludes no employee record: every
record of the invited list, including records missing the identifier or the
gender sentinel, is placed in some bucket, and the pass covers all records. -/
theorem c3_no_exclusion_amended (l : List Employee) (e : Employee) (he : e ∈ l) :
    ∃ kv ∈ groupedEmployees l, e ∈ kv.2.employees := by
  have hinv := grouped_foldl_inv l [] []
    (by simp) (by intro k g hg; simp [lookupGroup] at hg) (by simp)
  have hkey : groupKey e ∈ (groupedEmployees l).map Prod.fst := by
    apply hinv.2.2
    simpa using he
  rcases List.mem_map.mp hkey with ⟨kv, hkv, hfst⟩
  have hlook := lookup_of_mem_nodup (groupedEmployees l) hinv.1 kv hkv
  have hbucket := hinv.2.1 kv.1 kv.2 hlook
  refine ⟨kv, hkv, ?_⟩
  rw [hbucket]
  simp only [List.nil_append]
  exact List.mem_filter.mpr ⟨he, by simp [hfst]⟩

/-- Witness for the amended C3: the malformed record is in a bucket. -/
theorem c3_witness : ∃ kv ∈ groupedEmployees [c3bad], c3bad ∈ kv.2.employees :=
  c3_no_exclusion_amended [c3bad] c3bad (by decide)

end App
